import Mathlib

/-!
Verification development for the public-presence blog content pipeline.

The pipeline consists of three build scripts (`scripts/prebuild.js`,
`scripts/generatePosts.js`, `scripts/watcher.js`) and the client-side query
module `src/utils/posts.js`.  The JavaScript code is shallowly embedded here:
strings are Lean `String`s (operated on through their `Char` lists so that
everything kernel-reduces), JS exceptions are `Except`, the wall clock is an
explicit `now : Int` parameter, dates are represented by their parsed
timestamps (`new Date(s).getTime()`), and `Array.prototype.sort` is modelled
by a stable comparator-driven sort.
-/

namespace PublicPresence

/-! ### JS string and array primitives -/

/-- JS `s.includes(sub)`: substring test. -/
def jsIncludes (s sub : String) : Bool := decide (sub.data <:+: s.data)

/-- JS `s.toLowerCase()`, restricted to the simple character-wise case map
(adequate for the ASCII/Latin data of this repository). -/
def jsToLower (s : String) : String := ⟨s.data.map Char.toLower⟩

/-- JS `s.endsWith(suffix)`. -/
def jsEndsWith (s suf : String) : Bool := decide (suf.data <:+ s.data)

/-- JS `x || default` for string-valued frontmatter fields: `undefined` and
the empty string are both falsy, so both fall back to the default. -/
def jsOrStr : Option String → String → String
  | some s, d => if s = "" then d else s
  | none, d => d

/-- One insertion step of the comparator-driven sort modelling
`Array.prototype.sort`. -/
def jsSortInsert (le : α → α → Bool) (a : α) : List α → List α
  | [] => [a]
  | b :: l => if le a b then a :: b :: l else b :: jsSortInsert le a l

/-- `Array.prototype.sort(cmp)` modelled as a stable insertion sort: for a
consistent comparator `cmp`, JS guarantees the result is sorted with respect
to `le a b := cmp a b ≤ 0`, which is exactly what this function produces. -/
def jsSort (le : α → α → Bool) : List α → List α
  | [] => []
  | a :: l => jsSortInsert le a (jsSort le l)

/-- Lexicographic comparison of character lists; the order JS's default
string comparison (and hence `Array.prototype.sort` with no comparator)
applies to the tag strings of this repository. -/
def lexLe : List Char → List Char → Bool
  | [], _ => true
  | _ :: _, [] => false
  | a :: as, b :: bs => if a < b then true else if b < a then false else lexLe as bs

/-- JS default string `≤`, via the underlying character lists. -/
def strLe (a b : String) : Bool := lexLe a.data b.data

/-- Exception-propagating `Array.prototype.map`: an uncaught exception thrown
while mapping any element aborts the whole map (and, in the scripts below,
the whole build). -/
def mapE (f : α → Except ε β) : List α → Except ε (List β)
  | [] => .ok []
  | a :: l =>
    match f a with
    | .error e => .error e
    | .ok b =>
      match mapE f l with
      | .error e => .error e
      | .ok bs => .ok (b :: bs)

/-! ### Data model -/

/-- A parsed YAML frontmatter block.  String-valued keys are `Option`s
(`none` = key absent); `date` is represented by the timestamp that
`new Date(s)` would parse from the frontmatter's date string. -/
structure Frontmatter where
  title : Option String
  date : Option Int
  excerpt : Option String
  tags : Option (List String)
  author : Option String
  deriving Repr, DecidableEq

/-- The content of a markdown source file as seen by `gray-matter`: either no
leading `---` block, a well-formed block plus body, or a `---` block whose
YAML is malformed (on which `matter()` throws a `YAMLException`). -/
inductive FileContent where
  | noFrontmatter (body : String)
  | frontmatter (fm : Frontmatter) (body : String)
  | malformedFrontmatter (raw : String)
  deriving Repr, DecidableEq

/-- A file of the content/posts directory: filename plus content. -/
structure MDFile where
  name : String
  content : FileContent
  deriving Repr, DecidableEq

/-- `gray-matter`'s `matter(content)`: returns `{ data, content }`, throwing
on malformed YAML.  The thrown exception is modelled as `Except.error`. -/
def matter : FileContent → Except String (Frontmatter × String)
  | .noFrontmatter body => .ok (⟨none, none, none, none, none⟩, body)
  | .frontmatter fm body => .ok (fm, body)
  | .malformedFrontmatter _ => .error "YAMLException: malformed frontmatter"

/-- A post record as produced by `parsePost` in `scripts/prebuild.js`
(no `readingTime` yet; that is added when `posts.json` is assembled). -/
structure Post where
  slug : String
  title : String
  date : Int
  excerpt : String
  tags : List String
  author : String
  content : String
  deriving Repr, DecidableEq

/-- A manifest entry of `posts.json` / `generated-posts.json`: a `Post`
plus the derived `readingTime`. -/
structure ManifestPost extends Post where
  readingTime : Nat
  deriving Repr, DecidableEq

/-! ### Word count and reading time (`calculateReadingTime`) -/

/-- Leading- and trailing-whitespace trim of a character list
(JS `String.prototype.trim`). -/
def trimChars (l : List Char) : List Char :=
  ((l.dropWhile Char.isWhitespace).reverse.dropWhile Char.isWhitespace).reverse

/-- Number of maximal runs of non-whitespace characters. -/
def wordRuns : List Char → Bool → Nat
  | [], _ => 0
  | c :: l, inWord =>
    if c.isWhitespace then wordRuns l false
    else (if inWord then 0 else 1) + wordRuns l true

/-- `content.trim().split(/\s+/).length`: for the empty (post-trim) string JS
`split` yields `[""]`, hence length 1. -/
def jsWordCount (s : String) : Nat :=
  let t := trimChars s.data
  if t = [] then 1 else wordRuns t false

/-- `Math.ceil(words / 200)` — reading time in minutes. -/
def calculateReadingTime (content : String) : Nat :=
  (jsWordCount content + 199) / 200

/-! ### `scripts/prebuild.js` -/

namespace Prebuild

/-- `getPostFiles()`: `[]` when the directory is missing (it is then created
on disk), else the `.md` files minus the `POST_TEMPLATE.md` template.
The directory listing is the function's input. -/
def getPostFiles (dir : Option (List MDFile)) : List MDFile :=
  match dir with
  | none => []
  | some files =>
    (files.filter (fun f => jsEndsWith f.name ".md")).filter
      (fun f => f.name ≠ "POST_TEMPLATE.md")

/-- `path.basename(filepath, '.md')`: strip a trailing `.md`. -/
def baseNameMd (name : String) : String :=
  if ".md".data <:+ name.data then ⟨name.data.take (name.data.length - 3)⟩
  else name

/-- `parsePost(filepath)` of `scripts/prebuild.js`.  The uncaught
`gray-matter` exception propagates as `Except.error`; `now` is the wall clock
read by the `new Date().toISOString()` date default. -/
def parsePost (now : Int) (file : MDFile) : Except String Post :=
  match matter file.content with
  | .error e => .error e
  | .ok (fm, markdownContent) =>
    .ok
      { slug := baseNameMd file.name
        title := jsOrStr fm.title "Untitled"
        date := fm.date.getD now
        excerpt := jsOrStr fm.excerpt ""
        tags := fm.tags.getD []
        author := jsOrStr fm.author "Public Presence"
        content := markdownContent }

end Prebuild

/-- `new Date(timestamp).toUTCString()`, abstracted to a date-determined
rendering of the timestamp (no claim concerns the RFC-1123 format itself). -/
def toUTCString (d : Int) : String := toString d

/-- JS `array.join(sep)` (empty array joins to the empty string). -/
def joinSep (sep : String) : List String → String
  | [] => ""
  | [x] => x
  | x :: xs => x ++ sep ++ joinSep sep xs

/-- One global-replace pass `str.replace(/c/g, t)` for a single-character
pattern. -/
def replaceChar (c : Char) (t : List Char) : List Char → List Char
  | [] => []
  | x :: xs => (if x = c then t else [x]) ++ replaceChar c t xs

/-- The double-quote character, code point 34. -/
def quoteChar : Char := Char.ofNat 34

/-- The apostrophe character, code point 39. -/
def aposChar : Char := Char.ofNat 39

/-- `escapeXml` of `scripts/prebuild.js`: the five chained global replaces,
ampersand first, then angle brackets, double quote, apostrophe. -/
def escapeXml (s : String) : String :=
  ⟨replaceChar aposChar "&apos;".data
    (replaceChar quoteChar "&quot;".data
      (replaceChar '>' "&gt;".data
        (replaceChar '<' "&lt;".data
          (replaceChar '&' "&amp;".data s.data))))⟩

/-- The Post comparator `(a, b) => new Date(b.date) - new Date(a.date)`:
`a` may precede `b` exactly when the comparator is `≤ 0`. -/
def byDateDesc (a b : Post) : Bool := decide (b.date ≤ a.date)

/-- The same descending-date comparator on manifest entries. -/
def byDateDescM (a b : ManifestPost) : Bool := decide (b.date ≤ a.date)

namespace Prebuild

/-- One RSS `<item>` of `generateRSS`.  `title`, `description` and each
`<category>` go through `escapeXml`; the `content:encoded` element carries
`post.content` raw inside a CDATA section (the source computes
`escapeXml(post.content)` into a local `content` constant but never uses
it in the template). -/
def rssItem (post : Post) : String :=
  let siteUrl := "https://publicpresence.org"
  let postUrl := siteUrl ++ "/blog/" ++ post.slug
  let pubDate := toUTCString post.date
  let title := escapeXml post.title
  let description :=
    escapeXml
      (if post.excerpt = "" then (⟨post.content.data.take 200⟩ : String) ++ "..."
       else post.excerpt)
  let categories :=
    joinSep "\n      "
      (post.tags.map (fun tag => "<category>" ++ escapeXml tag ++ "</category>"))
  "\n    <item>\n      <title>" ++ title ++ "</title>\n      <link>" ++
    postUrl ++ "</link>\n      <guid isPermaLink=\"true\">" ++ postUrl ++
    "</guid>\n      <pubDate>" ++ pubDate ++ "</pubDate>\n      <description>" ++
    description ++ "</description>\n      <content:encoded><![CDATA[" ++
    post.content ++ "]]></content:encoded>\n      " ++ categories ++
    "\n    </item>"

/-- The `<item>` builder as the spec words it ("All text fields must be
XML-escaped"), for comparison with `rssItem`: identical except that the post
content carried in the item body is also escaped. -/
def rssItemSpec (post : Post) : String :=
  let siteUrl := "https://publicpresence.org"
  let postUrl := siteUrl ++ "/blog/" ++ post.slug
  let pubDate := toUTCString post.date
  let title := escapeXml post.title
  let description :=
    escapeXml
      (if post.excerpt = "" then (⟨post.content.data.take 200⟩ : String) ++ "..."
       else post.excerpt)
  let categories :=
    joinSep "\n      "
      (post.tags.map (fun tag => "<category>" ++ escapeXml tag ++ "</category>"))
  "\n    <item>\n      <title>" ++ title ++ "</title>\n      <link>" ++
    postUrl ++ "</link>\n      <guid isPermaLink=\"true\">" ++ postUrl ++
    "</guid>\n      <pubDate>" ++ pubDate ++ "</pubDate>\n      <description>" ++
    description ++ "</description>\n      <content:encoded><![CDATA[" ++
    escapeXml post.content ++ "]]></content:encoded>\n      " ++ categories ++
    "\n    </item>"

/-- `generateRSS(posts)`: sorts the posts descending by date (in the source
this `Array.prototype.sort` mutates the caller's array) and wraps the items
in the channel envelope.  `now` is the wall clock behind `lastBuildDate`. -/
def generateRSS (now : Int) (posts : List Post) : String :=
  let siteUrl := "https://publicpresence.org"
  let buildDate := toUTCString now
  let sortedPosts := jsSort byDateDesc posts
  let items := joinSep "\n" (sortedPosts.map rssItem)
  "<?xml version=\"1.0\" encoding=\"UTF-8\"?>\n<rss version=\"2.0\" \n     xmlns:content=\"http://purl.org/rss/1.0/modules/content/\"\n     xmlns:atom=\"http://www.w3.org/2005/Atom\">\n  <channel>\n    <title>Public Presence</title>\n    <link>" ++
    siteUrl ++
    "</link>\n    <description>Personal blog focused on sustainability science, public planning, policy, and public transportation</description>\n    <language>en-us</language>\n    <lastBuildDate>" ++
    buildDate ++ "</lastBuildDate>\n    <atom:link href=\"" ++ siteUrl ++
    "/rss.xml\" rel=\"self\" type=\"application/rss+xml\" />\n    " ++ items ++
    "\n  </channel>\n</rss>"

/-- The artifacts written (or not) by one run of `scripts/prebuild.js`. -/
structure Output where
  warnings : List String
  rss : Option String
  postsJson : Option (List ManifestPost)
  deriving Repr, DecidableEq

/-- The `postsData` entry built in `main`: the parsed post plus
`readingTime: Math.ceil(post.content.trim().split(/\s+/).length / 200)`. -/
def toManifest (post : Post) : ManifestPost :=
  { post with readingTime := (jsWordCount post.content + 199) / 200 }

/-- `main()` of `scripts/prebuild.js`.  With zero post files it logs the
warning and returns early — writing neither `rss.xml` nor `posts.json`.
Otherwise it parses every file (an uncaught parse exception aborts the run),
generates the RSS feed, and writes `posts.json` from the same array that
`generateRSS` sorted in place. -/
def main (now : Int) (dir : Option (List MDFile)) : Except String Output :=
  let dirWarnings :=
    match dir with
    | none => ["Posts directory does not exist. Creating it..."]
    | some _ => []
  let postFiles := getPostFiles dir
  if postFiles.length = 0 then
    .ok
      { warnings := dirWarnings ++ ["No posts found. Skipping RSS generation."]
        rss := none
        postsJson := none }
  else
    match mapE (parsePost now) postFiles with
    | .error e => .error e
    | .ok posts =>
      let sortedPosts := jsSort byDateDesc posts
      let rss := generateRSS now sortedPosts
      let postsData := sortedPosts.map toManifest
      .ok { warnings := dirWarnings, rss := some rss, postsJson := some postsData }

end Prebuild

/-! ### `scripts/generatePosts.js` -/

namespace GeneratePosts

/-- `processPost(filepath)` of `scripts/generatePosts.js`: like the prebuild
parser but with title default `"Untitled Post"` and `readingTime` computed
immediately. -/
def processPost (now : Int) (file : MDFile) : Except String ManifestPost :=
  match matter file.content with
  | .error e => .error e
  | .ok (fm, markdownContent) =>
    .ok
      { slug := Prebuild.baseNameMd file.name
        title := jsOrStr fm.title "Untitled Post"
        date := fm.date.getD now
        excerpt := jsOrStr fm.excerpt ""
        tags := fm.tags.getD []
        author := jsOrStr fm.author "Public Presence"
        content := markdownContent
        readingTime := calculateReadingTime markdownContent }

/-- `main()` of `scripts/generatePosts.js`: missing directory or zero
markdown files each write an empty JSON array (with a warning); otherwise
every file is processed (uncaught parse exceptions abort the run) and the
result is sorted newest-first. -/
def main (now : Int) (dir : Option (List MDFile)) :
    Except String (List ManifestPost × List String) :=
  match dir with
  | none => .ok ([], ["No posts directory found, creating empty posts array"])
  | some dirFiles =>
    let files :=
      dirFiles.filter
        (fun f => jsEndsWith f.name ".md" && !(f.name == "POST_TEMPLATE.md"))
    if files.length = 0 then
      .ok ([], ["No posts found, creating empty posts array"])
    else
      match mapE (processPost now) files with
      | .error e => .error e
      | .ok posts => .ok (jsSort byDateDescM posts, [])

end GeneratePosts

/-! ### `src/utils/posts.js` — client query surface

The repository carries two revisions of this module (a fetch-based one
operating on `posts.json` and a gray-matter one parsing at bundle time);
their query functions (`getAllTags`, `getPostsByTag`, `getRecentPosts`,
`searchPosts`, `getPostNavigation`, `getPostBySlug`) have identical bodies,
embedded once here over the loaded manifest. -/

namespace ClientPosts

/-- `getAllPosts()` of the fetch-based module: returns the cached manifest
exactly as fetched from `posts.json`. -/
def getAllPosts (manifest : List ManifestPost) : List ManifestPost := manifest

/-- `getPostBySlug(slug)`: `find(...) || null`. -/
def getPostBySlug (posts : List ManifestPost) (slug : String) :
    Option ManifestPost :=
  posts.find? (fun post => post.slug == slug)

/-- `getAllTags()`: insert every post's tags into a `Set` (first insertion
wins, duplicates collapse), then `Array.from(tagSet).sort()` with the
default string comparator. -/
def getAllTags (posts : List ManifestPost) : List String :=
  let tagList :=
    posts.foldl
      (fun acc post =>
        post.tags.foldl (fun acc tag => if tag ∈ acc then acc else acc ++ [tag])
          acc)
      []
  jsSort strLe tagList

/-- `getPostsByTag(tag)`. -/
def getPostsByTag (posts : List ManifestPost) (tag : String) :
    List ManifestPost :=
  posts.filter (fun post => post.tags.contains tag)

/-- `getRecentPosts(count = 5)`. -/
def getRecentPosts (posts : List ManifestPost) (count : Nat := 5) :
    List ManifestPost :=
  posts.take count

/-- `searchPosts(keyword)`: lower-case the query once, keep the posts where
any of title, excerpt, content, or a tag contains it. -/
def searchPosts (posts : List ManifestPost) (keyword : String) :
    List ManifestPost :=
  let searchTerm := jsToLower keyword
  posts.filter
    (fun post =>
      jsIncludes (jsToLower post.title) searchTerm ||
      jsIncludes (jsToLower post.excerpt) searchTerm ||
      jsIncludes (jsToLower post.content) searchTerm ||
      post.tags.any (fun tag => jsIncludes (jsToLower tag) searchTerm))

/-- JS `Array.prototype.findIndex`: the index of the first match, `-1` when
nothing matches. -/
def jsFindIndex (p : α → Bool) (l : List α) : Int :=
  match l.findIdx? p with
  | some n => (n : Int)
  | none => -1

/-- `getPostNavigation(currentSlug)`: neighbors of the post at
`findIndex(post => post.slug === currentSlug)` in the sorted array, `null`
(here `none`) beyond either end. -/
def getPostNavigation (posts : List ManifestPost) (currentSlug : String) :
    Option ManifestPost × Option ManifestPost :=
  let currentIndex : Int :=
    jsFindIndex (fun post => post.slug == currentSlug) posts
  (if currentIndex > 0 then posts[(currentIndex - 1).toNat]? else none,
   if currentIndex < (posts.length : Int) - 1 then
     posts[(currentIndex + 1).toNat]?
   else none)

/-- The characters of a path after the last `/`
(`filepath.split('/').pop()`). -/
def lastPathComponent (path : String) : String :=
  ⟨(path.data.reverse.takeWhile (fun c => c ≠ '/')).reverse⟩

/-- JS `str.replace(pat, '')` for a plain-string pattern: remove the FIRST
occurrence only. -/
def removeFirst (pat : List Char) : List Char → List Char
  | [] => []
  | x :: xs => if pat <+: (x :: xs) then (x :: xs).drop pat.length
    else x :: removeFirst pat xs

/-- `processPost(filepath, content)` of the gray-matter module: slug from
`filepath.split('/').pop().replace('.md', '')`, title default
`"Untitled Post"`. -/
def processPost (now : Int) (filepath : String) (content : FileContent) :
    Except String ManifestPost :=
  match matter content with
  | .error e => .error e
  | .ok (fm, markdownContent) =>
    .ok
      { slug := ⟨removeFirst ".md".data (lastPathComponent filepath).data⟩
        title := jsOrStr fm.title "Untitled Post"
        date := fm.date.getD now
        excerpt := jsOrStr fm.excerpt ""
        tags := fm.tags.getD []
        author := jsOrStr fm.author "Public Presence"
        content := markdownContent
        readingTime := calculateReadingTime markdownContent }

/-- `getAllPosts()` of the gray-matter module: process every globbed file
and sort newest-first. -/
def getAllPostsSrc (now : Int) (postFiles : List (String × FileContent)) :
    Except String (List ManifestPost) :=
  match mapE (fun fc => processPost now fc.1 fc.2) postFiles with
  | .error e => .error e
  | .ok posts => .ok (jsSort byDateDescM posts)

end ClientPosts

/-! ### `scripts/watcher.js` — debounced watch-rebuild loop -/

namespace Watcher

/-- `CONFIG.debounceDelay`: 5000 milliseconds. -/
def debounceDelay : Nat := 5000

/-- Single-threaded timer semantics of `debouncedBuild`: the state is the
expiry time of the pending `setTimeout` (if any).  Each filesystem event at
time `t` first lets an already-elapsed timer fire (`p ≤ t`: the build ran
before the event was handled), then clears any still-pending timer and arms
a fresh one for `t + debounceDelay`.  After the last event the remaining
timer fires. -/
def processEvents : Option Nat → List Nat → List Nat
  | pending, [] =>
    match pending with
    | some p => [p]
    | none => []
  | pending, t :: ts =>
    match pending with
    | none => processEvents (some (t + debounceDelay)) ts
    | some p =>
      if p ≤ t then p :: processEvents (some (t + debounceDelay)) ts
      else processEvents (some (t + debounceDelay)) ts

/-- Times at which `runBuild` fires, for filesystem events observed at the
given (strictly increasing) times, starting from the Idle state. -/
def rebuildTimes (events : List Nat) : List Nat := processEvents none events

end Watcher

/-! ### Spec-level predicates -/

/-- The spec's "field contains the query as a substring ignoring case":
some slice of the field matches the query up to letter case. -/
def containsIgnoringCase (field query : String) : Prop :=
  ∃ w : List Char,
    w <:+: field.data ∧ w.map Char.toLower = query.data.map Char.toLower

/-! ### Concrete fixtures for witnesses and counterexamples -/

/-- A well-formed post file, date timestamp 100. -/
def fileAlpha : MDFile :=
  ⟨"a.md",
    .frontmatter ⟨some "Alpha", some 100, some "exA", some ["x"], none⟩
      "alpha body"⟩

/-- A well-formed post file, date timestamp 200. -/
def fileBeta : MDFile :=
  ⟨"b.md",
    .frontmatter
      ⟨some "Beta", some 200, some "Cats & Dogs <3", some ["x", "y"], none⟩
      "beta body"⟩

/-- A post file whose frontmatter block is malformed YAML. -/
def fileMalformed : MDFile :=
  ⟨"broken.md", .malformedFrontmatter "title: [unterminated"⟩

/-- A post file whose frontmatter has no `title` key. -/
def fileNoTitle : MDFile :=
  ⟨"untitled.md", .frontmatter ⟨none, some 50, none, none, none⟩ "hello world"⟩

/-- A parsed post whose body contains XML-special characters. -/
def postCats : Post := ⟨"c", "T", 5, "i", [], "a", "Cats & Dogs <3"⟩

/-- A parsed post whose body contains no XML-special characters. -/
def postPlain : Post := ⟨"p", "Plain", 5, "intro", ["tag"], "a", "plain body"⟩

/-- Manifest entry, date 100. -/
def mpA : ManifestPost :=
  ⟨⟨"a", "Alpha", 100, "exA", ["x", "sustainability"], "au", "contA"⟩, 1⟩

/-- Manifest entry, date 200. -/
def mpB : ManifestPost :=
  ⟨⟨"b", "Beta", 200, "exB", ["x", "y"], "au", "SUSTAINABILITY here"⟩, 1⟩

/-- Manifest entry, date 50. -/
def mpC : ManifestPost := ⟨⟨"c", "Gamma", 50, "exC", [], "au", "contC"⟩, 1⟩

/-! ### Helper lemmas -/

theorem jsSortInsert_perm (le : α → α → Bool) (a : α) (l : List α) :
    List.Perm (jsSortInsert le a l) (a :: l) := by
  induction l with
  | nil => simp [jsSortInsert]
  | cons b l ih =>
    by_cases h : le a b = true
    · simp [jsSortInsert, h]
    · simp only [jsSortInsert, if_neg h]
      exact List.Perm.trans (List.Perm.cons b ih) (List.Perm.swap a b l)

theorem jsSort_perm (le : α → α → Bool) (l : List α) :
    List.Perm (jsSort le l) l := by
  induction l with
  | nil => simp [jsSort]
  | cons a l ih =>
    exact List.Perm.trans (jsSortInsert_perm le a _) (List.Perm.cons a ih)

theorem mem_jsSort (le : α → α → Bool) (l : List α) (x : α) :
    x ∈ jsSort le l ↔ x ∈ l :=
  (jsSort_perm le l).mem_iff

theorem jsSortInsert_pairwise (le : α → α → Bool)
    (htot : ∀ a b, le a b = true ∨ le b a = true)
    (htr : ∀ a b c, le a b = true → le b c = true → le a c = true)
    (a : α) (l : List α) (hl : l.Pairwise (fun x y => le x y = true)) :
    (jsSortInsert le a l).Pairwise (fun x y => le x y = true) := by
  induction l with
  | nil => simp [jsSortInsert]
  | cons b l ih =>
    rcases List.pairwise_cons.mp hl with ⟨hb, hl'⟩
    by_cases h : le a b = true
    · simp only [jsSortInsert, if_pos h]
      refine List.pairwise_cons.mpr ⟨?_, hl⟩
      intro x hx
      rcases List.mem_cons.mp hx with rfl | hx
      · exact h
      · exact htr a b x h (hb x hx)
    · simp only [jsSortInsert, if_neg h]
      refine List.pairwise_cons.mpr ⟨?_, ih hl'⟩
      intro x hx
      have hx' := (jsSortInsert_perm le a l).mem_iff.mp hx
      rcases List.mem_cons.mp hx' with rfl | hx'
      · rcases htot x b with hxb | hbx
        · exact absurd hxb h
        · exact hbx
      · exact hb x hx'

theorem jsSort_pairwise (le : α → α → Bool)
    (htot : ∀ a b, le a b = true ∨ le b a = true)
    (htr : ∀ a b c, le a b = true → le b c = true → le a c = true)
    (l : List α) :
    (jsSort le l).Pairwise (fun x y => le x y = true) := by
  induction l with
  | nil => simp [jsSort]
  | cons a l ih => exact jsSortInsert_pairwise le htot htr a _ ih

theorem lexLe_total (a b : List Char) : lexLe a b = true ∨ lexLe b a = true := by
  induction a generalizing b with
  | nil => left; simp [lexLe]
  | cons x xs ih =>
    cases b with
    | nil => right; simp [lexLe]
    | cons y ys =>
      rcases lt_trichotomy x y with h | h | h
      · left; simp [lexLe, h]
      · subst h
        rcases ih ys with h' | h'
        · left; simp [lexLe, lt_irrefl, h']
        · right; simp [lexLe, lt_irrefl, h']
      · right; simp [lexLe, h]

theorem lexLe_trans (a b c : List Char) (hab : lexLe a b = true)
    (hbc : lexLe b c = true) : lexLe a c = true := by
  induction a generalizing b c with
  | nil => simp [lexLe]
  | cons x xs ih =>
    cases b with
    | nil => simp [lexLe] at hab
    | cons y ys =>
      cases c with
      | nil => simp [lexLe] at hbc
      | cons z zs =>
        simp only [lexLe] at hab hbc ⊢
        by_cases hxy : x < y
        · by_cases hyz : y < z
          · simp [lt_trans hxy hyz]
          · by_cases hzy : z < y
            · simp [hyz, hzy] at hbc
            · have hyzeq : y = z := le_antisymm (not_lt.mp hzy) (not_lt.mp hyz)
              subst hyzeq
              simp [hxy]
        · by_cases hyx : y < x
          · simp [hxy, hyx] at hab
          · have hxyeq : x = y := le_antisymm (not_lt.mp hyx) (not_lt.mp hxy)
            subst hxyeq
            simp only [lt_irrefl, if_false] at hab
            by_cases hxz : x < z
            · simp [hxz]
            · by_cases hzx : z < x
              · simp [hxz, hzx] at hbc
              · have hxzeq : x = z := le_antisymm (not_lt.mp hzx) (not_lt.mp hxz)
                subst hxzeq
                simp only [lt_irrefl, if_false] at hbc ⊢
                exact ih _ _ hab hbc

theorem strLe_total (a b : String) : strLe a b = true ∨ strLe b a = true :=
  lexLe_total a.data b.data

theorem strLe_trans (a b c : String) (hab : strLe a b = true)
    (hbc : strLe b c = true) : strLe a c = true :=
  lexLe_trans a.data b.data c.data hab hbc

theorem mapE_error_of_mem (f : α → Except ε β) (l : List α) (x : α)
    (hx : x ∈ l) (e : ε) (he : f x = .error e) :
    ∃ e', mapE f l = .error e' := by
  induction l with
  | nil => cases hx
  | cons a l ih =>
    rcases List.mem_cons.mp hx with rfl | hx
    · exact ⟨e, by simp [mapE, he]⟩
    · cases ha : f a with
      | error e' => exact ⟨e', by simp [mapE, ha]⟩
      | ok b =>
        rcases ih hx with ⟨e', he'⟩
        exact ⟨e', by simp [mapE, ha, he']⟩

theorem mem_replaceChar {c : Char} {t l : List Char} {y : Char}
    (h : y ∈ replaceChar c t l) : y ∈ t ∨ (y ∈ l ∧ y ≠ c) := by
  induction l with
  | nil => simp [replaceChar] at h
  | cons x xs ih =>
    simp only [replaceChar, List.mem_append] at h
    rcases h with h | h
    · by_cases hx : x = c
      · rw [if_pos hx] at h
        exact .inl h
      · rw [if_neg hx] at h
        simp only [List.mem_singleton] at h
        subst h
        exact .inr ⟨List.mem_cons_self _ _, hx⟩
    · rcases ih h with h | ⟨hy, hne⟩
      · exact .inl h
      · exact .inr ⟨List.mem_cons_of_mem _ hy, hne⟩

theorem escapeXml_no_specials (s : String) :
    ∀ c ∈ (escapeXml s).data,
      c ≠ '<' ∧ c ≠ '>' ∧ c ≠ quoteChar ∧ c ≠ aposChar := by
  have hap : ∀ x ∈ "&apos;".data,
      x ≠ '<' ∧ x ≠ '>' ∧ x ≠ quoteChar ∧ x ≠ aposChar := by decide
  have hqu : ∀ x ∈ "&quot;".data,
      x ≠ '<' ∧ x ≠ '>' ∧ x ≠ quoteChar ∧ x ≠ aposChar := by decide
  have hgt : ∀ x ∈ "&gt;".data,
      x ≠ '<' ∧ x ≠ '>' ∧ x ≠ quoteChar ∧ x ≠ aposChar := by decide
  have hlt : ∀ x ∈ "&lt;".data,
      x ≠ '<' ∧ x ≠ '>' ∧ x ≠ quoteChar ∧ x ≠ aposChar := by decide
  intro c hc
  simp only [escapeXml] at hc
  rcases mem_replaceChar hc with h5 | ⟨hc4, hne4⟩
  · exact hap c h5
  · rcases mem_replaceChar hc4 with h4 | ⟨hc3, hne3⟩
    · exact hqu c h4
    · rcases mem_replaceChar hc3 with h3 | ⟨hc2, hne2⟩
      · exact hgt c h3
      · rcases mem_replaceChar hc2 with h2 | ⟨_, hne1⟩
        · exact hlt c h2
        · exact ⟨hne1, hne2, hne3, hne4⟩

theorem infix_map_iff_exists (g : α → β) (sub : List β) (l : List α) :
    sub <:+: l.map g ↔ ∃ w, w <:+: l ∧ w.map g = sub := by
  constructor
  · rintro ⟨s, t, hst⟩
    have hst' : l.map g = s ++ (sub ++ t) := by
      rw [← hst, List.append_assoc]
    rcases List.map_eq_append_iff.mp hst' with ⟨l₁, l₂₃, hl, _, h23⟩
    rcases List.map_eq_append_iff.mp h23 with ⟨l₂, l₃, hl', hsub, _⟩
    refine ⟨l₂, ⟨l₁, l₃, ?_⟩, hsub⟩
    rw [hl, hl', List.append_assoc]
  · rintro ⟨w, hw, rfl⟩
    exact List.IsInfix.map g hw

theorem jsIncludes_toLower_iff (f q : String) :
    jsIncludes (jsToLower f) (jsToLower q) = true ↔ containsIgnoringCase f q := by
  simp only [jsIncludes, jsToLower, decide_eq_true_eq]
  exact infix_map_iff_exists Char.toLower (q.data.map Char.toLower) f.data

theorem byDateDesc_total (a b : Post) :
    byDateDesc a b = true ∨ byDateDesc b a = true := by
  simp only [byDateDesc, decide_eq_true_eq]
  exact le_total b.date a.date

theorem byDateDesc_trans (a b c : Post) (hab : byDateDesc a b = true)
    (hbc : byDateDesc b c = true) : byDateDesc a c = true := by
  simp only [byDateDesc, decide_eq_true_eq] at hab hbc ⊢
  exact le_trans hbc hab

theorem byDateDescM_total (a b : ManifestPost) :
    byDateDescM a b = true ∨ byDateDescM b a = true := by
  simp only [byDateDescM, decide_eq_true_eq]
  exact le_total b.date a.date

theorem byDateDescM_trans (a b c : ManifestPost) (hab : byDateDescM a b = true)
    (hbc : byDateDescM b c = true) : byDateDescM a c = true := by
  simp only [byDateDescM, decide_eq_true_eq] at hab hbc ⊢
  exact le_trans hbc hab

theorem insFold_mem (tags acc : List String) (t : String) :
    t ∈ tags.foldl (fun a tg => if tg ∈ a then a else a ++ [tg]) acc ↔
      t ∈ acc ∨ t ∈ tags := by
  induction tags generalizing acc with
  | nil => simp
  | cons tg tags ih =>
    simp only [List.foldl_cons]
    by_cases h : tg ∈ acc
    · rw [if_pos h, ih]
      constructor
      · rintro (ht | ht)
        · exact .inl ht
        · exact .inr (List.mem_cons_of_mem _ ht)
      · rintro (ht | ht)
        · exact .inl ht
        · rcases List.mem_cons.mp ht with rfl | ht
          · exact .inl h
          · exact .inr ht
    · rw [if_neg h, ih]
      simp only [List.mem_append, List.mem_singleton, List.mem_cons]
      tauto

theorem insFold_nodup (tags acc : List String) (h : acc.Nodup) :
    (tags.foldl (fun a tg => if tg ∈ a then a else a ++ [tg]) acc).Nodup := by
  induction tags generalizing acc with
  | nil => simpa using h
  | cons tg tags ih =>
    simp only [List.foldl_cons]
    by_cases htg : tg ∈ acc
    · rw [if_pos htg]
      exact ih acc h
    · rw [if_neg htg]
      refine ih _ ?_
      simpa [List.nodup_append, h] using htg

theorem tagFold_mem (posts : List ManifestPost) (acc : List String)
    (t : String) :
    t ∈ posts.foldl
        (fun acc post =>
          post.tags.foldl (fun a tg => if tg ∈ a then a else a ++ [tg]) acc)
        acc ↔
      t ∈ acc ∨ ∃ p ∈ posts, t ∈ p.tags := by
  induction posts generalizing acc with
  | nil => simp
  | cons p posts ih =>
    simp only [List.foldl_cons]
    rw [ih, insFold_mem]
    simp only [List.mem_cons]
    constructor
    · rintro ((ht | ht) | ⟨p', hp', ht⟩)
      · exact .inl ht
      · exact .inr ⟨p, .inl rfl, ht⟩
      · exact .inr ⟨p', .inr hp', ht⟩
    · rintro (ht | ⟨p', hp' | hp', ht⟩)
      · exact .inl (.inl ht)
      · subst hp'
        exact .inl (.inr ht)
      · exact .inr ⟨p', hp', ht⟩

theorem tagFold_nodup (posts : List ManifestPost) (acc : List String)
    (h : acc.Nodup) :
    (posts.foldl
        (fun acc post =>
          post.tags.foldl (fun a tg => if tg ∈ a then a else a ++ [tg]) acc)
        acc).Nodup := by
  induction posts generalizing acc with
  | nil => simpa using h
  | cons p posts ih =>
    simp only [List.foldl_cons]
    exact ih _ (insFold_nodup p.tags acc h)

theorem processEvents_pending_burst (t : Nat) (ts : List Nat)
    (h : List.Chain' (fun a b => a < b ∧ b < a + Watcher.debounceDelay)
      (t :: ts)) :
    Watcher.processEvents (some (t + Watcher.debounceDelay)) ts =
      [ts.getLastD t + Watcher.debounceDelay] := by
  induction ts generalizing t with
  | nil => simp [Watcher.processEvents, List.getLastD]
  | cons u us ih =>
    have h1 : t < u ∧ u < t + Watcher.debounceDelay :=
      (List.chain'_cons.mp h).1
    have h2 : List.Chain' (fun a b => a < b ∧ b < a + Watcher.debounceDelay)
        (u :: us) := (List.chain'_cons.mp h).2
    simp only [Watcher.processEvents]
    rw [if_neg (Nat.not_le.mpr h1.2), ih u h2, List.getLastD_cons]


/-! ### Claim C1 — empty or missing content directory -/

/-- C1 (counterexample): on an empty posts directory, `prebuild.js` succeeds
but writes neither an RSS feed nor `posts.json` — refuting the claim that it
"still produces an empty JSON manifest ... and an RSS feed with zero items
... rather than skipping artifact generation". -/
theorem claim1_counterexample :
    (Prebuild.main 0 (some [])).toOption.map Prebuild.Output.rss =
      some none ∧
    (Prebuild.main 0 (some [])).toOption.map Prebuild.Output.postsJson =
      some none :=
  ⟨rfl, rfl⟩

/-- C1 (amended): with a missing or empty content/posts directory neither
build script fails and each warns; `generatePosts.js` writes an empty JSON
manifest, while `prebuild.js` returns early without writing `rss.xml` or
`posts.json`. -/
theorem claim1_amended (now : Int) :
    Prebuild.main now none =
      Except.ok
        ⟨["Posts directory does not exist. Creating it...",
          "No posts found. Skipping RSS generation."], none, none⟩ ∧
    Prebuild.main now (some []) =
      Except.ok ⟨["No posts found. Skipping RSS generation."], none, none⟩ ∧
    GeneratePosts.main now none =
      Except.ok ([], ["No posts directory found, creating empty posts array"]) ∧
    GeneratePosts.main now (some []) =
      Except.ok ([], ["No posts found, creating empty posts array"]) :=
  ⟨rfl, rfl, rfl, rfl⟩

/-! ### Claim C2 — malformed frontmatter in a batch -/

/-- C2 (counterexample): a batch holding one well-formed file and one file
with malformed YAML frontmatter makes both build scripts throw — the whole
build crashes, no per-file skip or warning happens. -/
theorem claim2_counterexample :
    (Prebuild.main 0 (some [fileAlpha, fileMalformed])).isOk = false ∧
    (GeneratePosts.main 0 (some [fileAlpha, fileMalformed])).isOk = false :=
  ⟨rfl, rfl⟩

/-- C2 (amended): whenever a batch holds a markdown file (not the template)
whose frontmatter is malformed YAML, the `gray-matter` exception propagates
uncaught through the `.map`, so both `prebuild.js` and `generatePosts.js`
abort the whole run with an error; the other files of the batch are not
carried into any manifest. -/
theorem claim2_amended (now : Int) (files : List MDFile) (f : MDFile)
    (raw : String) (hmem : f ∈ files) (hmd : jsEndsWith f.name ".md" = true)
    (hnt : f.name ≠ "POST_TEMPLATE.md")
    (hmal : f.content = FileContent.malformedFrontmatter raw) :
    (∃ e, Prebuild.main now (some files) = Except.error e) ∧
    (∃ e, GeneratePosts.main now (some files) = Except.error e) := by
  constructor
  · have hf : f ∈ Prebuild.getPostFiles (some files) := by
      simp only [Prebuild.getPostFiles]
      exact List.mem_filter.mpr
        ⟨List.mem_filter.mpr ⟨hmem, hmd⟩, by simp [hnt]⟩
    have hlen : (Prebuild.getPostFiles (some files)).length ≠ 0 := by
      have := List.length_pos.mpr (List.ne_nil_of_mem hf)
      omega
    have hpp : Prebuild.parsePost now f =
        Except.error "YAMLException: malformed frontmatter" := by
      simp [Prebuild.parsePost, hmal, matter]
    rcases mapE_error_of_mem (Prebuild.parsePost now)
        (Prebuild.getPostFiles (some files)) f hf _ hpp with ⟨e, he⟩
    exact ⟨e, by simp [Prebuild.main, hlen, he]⟩
  · have hf : f ∈ files.filter
        (fun f => jsEndsWith f.name ".md" && !(f.name == "POST_TEMPLATE.md")) := by
      exact List.mem_filter.mpr ⟨hmem, by simp [hmd, hnt]⟩
    have hlen : (files.filter
        (fun f => jsEndsWith f.name ".md" && !(f.name == "POST_TEMPLATE.md"))).length ≠ 0 := by
      have := List.length_pos.mpr (List.ne_nil_of_mem hf)
      omega
    have hpp : GeneratePosts.processPost now f =
        Except.error "YAMLException: malformed frontmatter" := by
      simp [GeneratePosts.processPost, hmal, matter]
    rcases mapE_error_of_mem (GeneratePosts.processPost now) _ f hf _ hpp with
      ⟨e, he⟩
    exact ⟨e, by simp [GeneratePosts.main, hlen, he]⟩

/-- C2 (witness): the amended claim applied to the concrete two-file batch. -/
theorem claim2_witness :
    (∃ e, Prebuild.main 0 (some [fileAlpha, fileMalformed]) = Except.error e) ∧
    (∃ e, GeneratePosts.main 0 (some [fileAlpha, fileMalformed]) =
      Except.error e) :=
  claim2_amended 0 [fileAlpha, fileMalformed] fileMalformed
    "title: [unterminated" (by decide) (by decide) (by decide) rfl

/-! ### Claim C6 — debounce semantics of the watch loop -/

/-- C6: the watch loop debounces: any burst of strictly increasing event
times whose consecutive gaps are below the 5-second quiet interval triggers
exactly one rebuild, `debounceDelay` after the burst's last event. -/
theorem claim6_theorem (t : Nat) (ts : List Nat)
    (h : List.Chain' (fun a b => a < b ∧ b < a + Watcher.debounceDelay)
      (t :: ts)) :
    Watcher.rebuildTimes (t :: ts) =
      [ts.getLastD t + Watcher.debounceDelay] := by
  simp only [Watcher.rebuildTimes, Watcher.processEvents]
  exact processEvents_pending_burst t ts h

/-- C6 (witness): three change events 1 second apart yield one rebuild,
5 seconds after the third event. -/
theorem claim6_witness : Watcher.rebuildTimes [0, 1000, 2000] = [7000] := by
  have h := claim6_theorem 0 [1000, 2000]
    (by norm_num [List.chain'_cons, Watcher.debounceDelay])
  simpa using h

/-! ### Claim C9 — default title -/

/-- C9 (counterexample): for a file whose frontmatter lacks `title`,
`prebuild.js` defaults the title to `"Untitled"`, not the claimed unified
`"Untitled Post"`. -/
theorem claim9_counterexample :
    (Prebuild.parsePost 0 fileNoTitle).toOption.map Post.title =
      some "Untitled" ∧
    "Untitled" ≠ "Untitled Post" :=
  ⟨rfl, by decide⟩

/-- C9 (amended): the pipeline uses two different title defaults: prebuild's
`parsePost` yields `"Untitled"`, while `generatePosts.js` and the client
parser yield `"Untitled Post"`. -/
theorem claim9_amended (now : Int) (name path : String) (fm : Frontmatter)
    (body : String) (h : fm.title = none) :
    (Prebuild.parsePost now ⟨name, .frontmatter fm body⟩).toOption.map
      Post.title = some "Untitled" ∧
    (GeneratePosts.processPost now ⟨name, .frontmatter fm body⟩).toOption.map
      (fun p => p.title) = some "Untitled Post" ∧
    (ClientPosts.processPost now path (.frontmatter fm body)).toOption.map
      (fun p => p.title) = some "Untitled Post" := by
  refine ⟨?_, ?_, ?_⟩
  · simp [Prebuild.parsePost, matter, h, jsOrStr, Except.toOption]
  · simp [GeneratePosts.processPost, matter, h, jsOrStr, Except.toOption]
  · simp [ClientPosts.processPost, matter, h, jsOrStr, Except.toOption]

/-- C9 (witness): the amended claim at the concrete title-less file. -/
theorem claim9_witness :
    (Prebuild.parsePost 0 fileNoTitle).toOption.map Post.title =
      some "Untitled" ∧
    (GeneratePosts.processPost 0 fileNoTitle).toOption.map
      (fun p => p.title) = some "Untitled Post" ∧
    (ClientPosts.processPost 0 "/content/posts/untitled.md"
      (.frontmatter ⟨none, some 50, none, none, none⟩ "hello world")).toOption.map
      (fun p => p.title) = some "Untitled Post" :=
  claim9_amended 0 "untitled.md" "/content/posts/untitled.md"
    ⟨none, some 50, none, none, none⟩ "hello world" rfl

/-! ### Claim C10 — navigation for an unknown slug -/

/-- C10: on a non-empty manifest, `getPostNavigation` of a slug that matches
no post returns `previous = null` and `next` = the first (most recent) post:
`findIndex` yields `-1`, which fails `currentIndex > 0` but passes
`currentIndex < posts.length - 1`, selecting `posts[0]`. -/
theorem claim10_theorem (posts : List ManifestPost) (slug : String)
    (hne : posts ≠ [])
    (habs : ∀ p ∈ posts, (p.slug == slug) = false) :
    ClientPosts.getPostNavigation posts slug = (none, posts[0]?) ∧
    ∃ p0, posts[0]? = some p0 := by
  have hidx : posts.findIdx? (fun p => p.slug == slug) = none :=
    List.findIdx?_eq_none_iff.mpr habs
  cases posts with
  | nil => exact absurd rfl hne
  | cons p ps =>
    constructor
    · have hc : (-1 : Int) < ((p :: ps).length : Int) - 1 := by
        simp only [List.length_cons]
        omega
      simp only [ClientPosts.getPostNavigation, ClientPosts.jsFindIndex, hidx]
      rw [if_neg (by decide : ¬ ((-1 : Int) > 0)), if_pos hc]
      norm_num
    · exact ⟨p, by simp⟩

/-- C10 (witness): the unknown slug `"zzz"` on a two-post manifest. -/
theorem claim10_witness :
    ClientPosts.getPostNavigation [mpB, mpA] "zzz" = (none, some mpB) := by
  have h := claim10_theorem [mpB, mpA] "zzz" (by decide) (by decide)
  simpa using h.1

/-! ### Claim C3 — XML escaping in the RSS feed -/

set_option maxRecDepth 8192 in
/-- C3 (counterexample): the generated item for a post whose body holds
XML-special characters differs from the spec's fully-escaped item, and the
raw unescaped body text appears verbatim inside the generated item. -/
theorem claim3_counterexample :
    Prebuild.rssItem postCats ≠ Prebuild.rssItemSpec postCats ∧
    "Cats & Dogs <3".data <:+: (Prebuild.rssItem postCats).data := by
  constructor
  · decide
  · decide

/-- C3 (amended): `escapeXml` is applied to title, description and each
category — leaving no raw `<`, `>`, `"` or `'` in those fields, and turning
the example excerpt `Cats & Dogs <3` into `Cats &amp; Dogs &lt;3` — but the
post content carried in `content:encoded` is emitted raw inside a CDATA
section: the generated item agrees with the spec's fully-escaped item
exactly when the content needs no escaping. -/
theorem claim3_theorem (p : Post) (h : escapeXml p.content = p.content) :
    Prebuild.rssItem p = Prebuild.rssItemSpec p ∧
    (∀ s : String, ∀ c ∈ (escapeXml s).data,
      c ≠ '<' ∧ c ≠ '>' ∧ c ≠ quoteChar ∧ c ≠ aposChar) ∧
    escapeXml "Cats & Dogs <3" = "Cats &amp; Dogs &lt;3" := by
  refine ⟨?_, escapeXml_no_specials, by decide⟩
  simp only [Prebuild.rssItem, Prebuild.rssItemSpec, h]

/-- C3 (witness): the amended claim at a post with no special characters in
its body. -/
theorem claim3_witness :
    Prebuild.rssItem postPlain = Prebuild.rssItemSpec postPlain :=
  (claim3_theorem postPlain (by decide)).1

/-! ### Claim C4 — manifests sorted descending by date -/

/-- C4: whatever the enumeration order of the source files, every produced
manifest — `generated-posts.json`, prebuild's `posts.json`, and the
gray-matter `getAllPosts()` — is sorted non-increasing by date. -/
theorem claim4_theorem (now : Int) (dir : Option (List MDFile))
    (files : List (String × FileContent)) :
    (∀ posts warns, GeneratePosts.main now dir = Except.ok (posts, warns) →
      posts.Pairwise (fun a b => b.date ≤ a.date)) ∧
    (∀ out pj, Prebuild.main now dir = Except.ok out →
      out.postsJson = some pj → pj.Pairwise (fun a b => b.date ≤ a.date)) ∧
    (∀ posts, ClientPosts.getAllPostsSrc now files = Except.ok posts →
      posts.Pairwise (fun a b => b.date ≤ a.date)) := by
  refine ⟨?_, ?_, ?_⟩
  · intro posts warns hmain
    cases dir with
    | none =>
      simp only [GeneratePosts.main, Except.ok.injEq, Prod.mk.injEq] at hmain
      rw [← hmain.1]
      simp
    | some dirFiles =>
      by_cases hlen : (dirFiles.filter
          (fun f => jsEndsWith f.name ".md" &&
            !(f.name == "POST_TEMPLATE.md"))).length = 0
      · simp only [GeneratePosts.main, hlen, if_true, Except.ok.injEq,
          Prod.mk.injEq, if_pos] at hmain
        rw [← hmain.1]
        simp
      · cases hmap : mapE (GeneratePosts.processPost now)
            (dirFiles.filter
              (fun f => jsEndsWith f.name ".md" &&
                !(f.name == "POST_TEMPLATE.md"))) with
        | error e => simp [GeneratePosts.main, hlen, hmap] at hmain
        | ok ps =>
          simp only [GeneratePosts.main, hlen, hmap, if_neg, if_false,
            Except.ok.injEq, Prod.mk.injEq] at hmain
          rw [← hmain.1]
          have hs := jsSort_pairwise byDateDescM byDateDescM_total
            byDateDescM_trans ps
          exact hs.imp (fun hab => by
            simpa [byDateDescM, decide_eq_true_eq] using hab)
  · intro out pj hmain hpj
    by_cases hlen : (Prebuild.getPostFiles dir).length = 0
    · simp only [Prebuild.main, hlen, if_true, if_pos, Except.ok.injEq]
        at hmain
      rw [← hmain] at hpj
      simp at hpj
    · cases hmap : mapE (Prebuild.parsePost now)
          (Prebuild.getPostFiles dir) with
      | error e => simp [Prebuild.main, hlen, hmap] at hmain
      | ok ps =>
        simp only [Prebuild.main, hlen, hmap, if_neg, if_false,
          Except.ok.injEq] at hmain
        rw [← hmain] at hpj
        simp only [Option.some.injEq] at hpj
        rw [← hpj, List.pairwise_map]
        have hs := jsSort_pairwise byDateDesc byDateDesc_total
          byDateDesc_trans ps
        exact hs.imp (fun hab => by
          simpa [byDateDesc, decide_eq_true_eq, Prebuild.toManifest] using hab)
  · intro posts hmain
    cases hmap : mapE (fun fc => ClientPosts.processPost now fc.1 fc.2)
        files with
    | error e => simp [ClientPosts.getAllPostsSrc, hmap] at hmain
    | ok ps =>
      simp only [ClientPosts.getAllPostsSrc, hmap, Except.ok.injEq] at hmain
      rw [← hmain]
      have hs := jsSort_pairwise byDateDescM byDateDescM_total
        byDateDescM_trans ps
      exact hs.imp (fun hab => by
        simpa [byDateDescM, decide_eq_true_eq] using hab)

/-- C4 (witness): the theorem applied to a concrete two-file directory. -/
theorem claim4_witness :
    ∃ posts warns,
      GeneratePosts.main 7 (some [fileAlpha, fileBeta]) =
        Except.ok (posts, warns) ∧
      posts.Pairwise (fun a b => b.date ≤ a.date) := by
  refine ⟨_, _, rfl, ?_⟩
  exact (claim4_theorem 7 (some [fileAlpha, fileBeta]) []).1 _ _ rfl

/-! ### Claim C5 — navigation neighbors of a present slug -/

/-- C5: for a slug found at index `i` of the (descending-sorted) manifest:
at the first position `previous` is `null`; at the last position `next` is
`null`; strictly inside, both neighbors are the adjacent posts of the sorted
sequence, `previous` being the next-most-recent (date ≥ current) and `next`
the next-least-recent (date ≤ current). -/
theorem claim5_theorem (posts : List ManifestPost) (slug : String) (i : Nat)
    (hfound : posts.findIdx? (fun p => p.slug == slug) = some i)
    (hsorted : posts.Pairwise (fun a b => b.date ≤ a.date)) :
    (i = 0 → (ClientPosts.getPostNavigation posts slug).1 = none) ∧
    (i = posts.length - 1 →
      (ClientPosts.getPostNavigation posts slug).2 = none) ∧
    (0 < i → i + 1 < posts.length →
      ∃ pPrev pNext,
        (ClientPosts.getPostNavigation posts slug).1 = some pPrev ∧
        (ClientPosts.getPostNavigation posts slug).2 = some pNext ∧
        posts[i - 1]? = some pPrev ∧ posts[i + 1]? = some pNext ∧
        ∃ pCur, posts[i]? = some pCur ∧
          pCur.date ≤ pPrev.date ∧ pNext.date ≤ pCur.date) := by
  have hi : i < posts.length := by
    rcases List.findIdx?_eq_some_iff_getElem.mp hfound with ⟨h, _, _⟩
    exact h
  simp only [ClientPosts.getPostNavigation, ClientPosts.jsFindIndex, hfound]
  refine ⟨?_, ?_, ?_⟩
  · rintro rfl
    norm_num
  · intro hlast
    rw [if_neg (by omega : ¬ ((i : Int) < (posts.length : Int) - 1))]
  · intro h0 hlt
    have hprev : ((i : Int) - 1).toNat = i - 1 := by omega
    have hnext : ((i : Int) + 1).toNat = i + 1 := by omega
    rw [if_pos (by omega : (i : Int) > 0),
      if_pos (by omega : (i : Int) < (posts.length : Int) - 1), hprev, hnext]
    have hib : i - 1 < posts.length := by omega
    have hp := List.pairwise_iff_getElem.mp hsorted
    refine ⟨posts[i - 1], posts[i + 1], List.getElem?_eq_getElem hib,
      List.getElem?_eq_getElem hlt, List.getElem?_eq_getElem hib,
      List.getElem?_eq_getElem hlt, posts[i], List.getElem?_eq_getElem hi,
      ?_, ?_⟩
    · exact hp (i - 1) i hib hi (by omega)
    · exact hp i (i + 1) hi hlt (by omega)

/-- C5 (witness): the middle post of a three-post sorted manifest has both
neighbors. -/
theorem claim5_witness :
    (ClientPosts.getPostNavigation [mpB, mpA, mpC] "a").1 = some mpB ∧
    (ClientPosts.getPostNavigation [mpB, mpA, mpC] "a").2 = some mpC := by
  have h := claim5_theorem [mpB, mpA, mpC] "a" 1 (by decide) (by decide)
  rcases h.2.2 (by decide) (by decide) with
    ⟨pp, pn, h1, h2, h3, h4, _, _, _⟩
  have hpp : some mpB = some pp := by simpa using h3
  have hpn : some mpC = some pn := by simpa using h4
  rw [h1, h2, ← hpp, ← hpn]
  exact ⟨rfl, rfl⟩

/-! ### Claim C7 — case-insensitive substring search -/

/-- C7: `searchPosts` keeps exactly the posts where title, excerpt, content
or some tag contains the query as a substring ignoring case, and two queries
equal up to letter case give identical result lists. -/
theorem claim7_theorem (posts : List ManifestPost) (q q2 : String) :
    (∀ p, p ∈ ClientPosts.searchPosts posts q ↔
      p ∈ posts ∧
        (containsIgnoringCase p.title q ∨ containsIgnoringCase p.excerpt q ∨
          containsIgnoringCase p.content q ∨
          ∃ t ∈ p.tags, containsIgnoringCase t q)) ∧
    (jsToLower q = jsToLower q2 →
      ClientPosts.searchPosts posts q = ClientPosts.searchPosts posts q2) := by
  constructor
  · intro p
    simp only [ClientPosts.searchPosts, List.mem_filter, Bool.or_eq_true,
      List.any_eq_true, jsIncludes_toLower_iff]
    tauto
  · intro h
    simp only [ClientPosts.searchPosts, h]

/-- C7 (witness): `"SUSTAINABILITY"` and `"sustainability"` give identical
results on a concrete manifest. -/
theorem claim7_witness :
    ClientPosts.searchPosts [mpA, mpB] "SUSTAINABILITY" =
      ClientPosts.searchPosts [mpA, mpB] "sustainability" :=
  (claim7_theorem [mpA, mpB] "SUSTAINABILITY" "sustainability").2 (by decide)

/-! ### Claim C8 — tag list: deduplicated and sorted -/

/-- C8: for any posts (overlapping tag lists included), `getAllTags` returns
the union of the posts' tags without duplicates, sorted by the string
order. -/
theorem claim8_theorem (posts : List ManifestPost) :
    (ClientPosts.getAllTags posts).Nodup ∧
    List.Pairwise (fun a b => strLe a b = true)
      (ClientPosts.getAllTags posts) ∧
    ∀ t, t ∈ ClientPosts.getAllTags posts ↔ ∃ p ∈ posts, t ∈ p.tags := by
  simp only [ClientPosts.getAllTags]
  refine ⟨?_, ?_, ?_⟩
  · exact (jsSort_perm strLe _).nodup_iff.mpr
      (tagFold_nodup posts [] List.nodup_nil)
  · exact jsSort_pairwise strLe strLe_total strLe_trans _
  · intro t
    rw [mem_jsSort, tagFold_mem]
    simp

end PublicPresence
